import Mathlib

/-!
Verification of the incremental program-construction and evaluation engine
of the gore REPL (session.go, commands.go).

The Go AST is embedded shallowly: only the structure the engine inspects is
modelled.  Expressions are identifiers or opaque source text; statements are
call statements (an `ast.ExprStmt` wrapping an `ast.CallExpr` whose function
is a plain identifier), assignment statements carrying their left-hand
expression list, or opaque source text; top-level declarations are function
declarations (name plus body statement list) or opaque non-function
declarations (`ast.GenDecl`).

External facilities (go/parser, go/scanner, the go toolchain, the importer,
astutil, goimports) are black boxes per the spec; their outcomes enter the
model as oracle values.  The quickfix passes (clearQuickFix / doQuickFix) are
repository code not present in the sources under verification; the spec's
control flow (classify, splice, run, rollback on failure) assigns them no
effect on the Program representation, so they are modelled as the identity.

Pointer aliasing in the Go code is resolved to value semantics as follows:
`s.mainBody` is a pointer to the body block of the (unique) function
declaration named "main" inside `s.file.Decls`, so it is modelled as a
derived accessor `mainBody` over the declaration list, and writing through
the pointer is modelled by `setMainBody`, which rewrites the body of the
first declaration named "main".  The checkpoint slices (`lastStmts`,
`lastDecls`) captured by `storeCode` are never written through between a
store and a restore, so holding them as immutable values is faithful.
-/

namespace Gore

/-- An expression as far as the engine inspects it: a bare identifier
(`ast.Ident`, needed for the discard check `isNamedIdent(v, "_")`) or
opaque source text. -/
inductive GoExpr where
  | ident (name : String)
  | raw (src : String)
deriving DecidableEq

/-- A statement as far as the engine inspects it.  `callStmt fn args` stands
for `ast.ExprStmt` wrapping `ast.CallExpr` with function identifier `fn` —
the shape the engine synthesizes for print-helper calls.  `assign lhs rhs`
stands for `ast.AssignStmt` with left-hand expression list `lhs` (the
right-hand side is opaque).  Everything else is opaque source text. -/
inductive GoStmt where
  | callStmt (fn : String) (args : List GoExpr)
  | assign (lhs : List GoExpr) (rhs : String)
  | raw (src : String)
deriving DecidableEq

/-- A top-level declaration: a function declaration (`ast.FuncDecl`, name
plus body statement list) or an opaque non-function declaration
(`ast.GenDecl`: imports, vars, types, consts). -/
inductive GoDecl where
  | funcDecl (name : String) (body : List GoStmt)
  | genDecl (src : String)
deriving DecidableEq

/-- `printerName` from session.go. -/
def printerName : String := "__gore_p"

/-- The mutable session state the claims are about: the file's top-level
declaration list, the import list (the file's import declarations, managed
by the external `astutil.AddImport` and kept separate because
`restoreCode` passes non-function declarations through unchanged), the
checkpoint fields `lastStmts` / `lastDecls`, and the `autoImport` flag. -/
structure Session where
  fileDecls : List GoDecl
  imports : List String
  lastStmts : List GoStmt
  lastDecls : List GoDecl
  autoImport : Bool
deriving DecidableEq

/-- `isNamedIdent` from session.go: the expression is an identifier with
exactly the given name. -/
def isNamedIdent (expr : GoExpr) (name : String) : Bool :=
  match expr with
  | .ident n => n == name
  | _ => false

/-- First function declaration with the given name, mirroring the
find-first-and-break loops of `evalFunc` and `restoreCode` and the scope
lookup of `mainFunc`. -/
def findFunc (decls : List GoDecl) (name : String) : Option GoDecl :=
  match decls with
  | [] => none
  | .funcDecl n b :: rest =>
    if n = name then some (.funcDecl n b) else findFunc rest name
  | _ :: rest => findFunc rest name

/-- The body of the entry-point function: what `s.mainBody.List` points at
(empty when no "main" declaration exists). -/
def mainBody (decls : List GoDecl) : List GoStmt :=
  match findFunc decls "main" with
  | some (.funcDecl _ b) => b
  | _ => []

/-- Whether an entry-point declaration is present. -/
def hasMain (decls : List GoDecl) : Bool :=
  (findFunc decls "main").isSome

/-- Writing through the `s.mainBody` pointer: replace the body of the first
declaration named "main". -/
def setMainBody (decls : List GoDecl) (stmts : List GoStmt) : List GoDecl :=
  match decls with
  | [] => []
  | .funcDecl n b :: rest =>
    if n = "main" then .funcDecl n stmts :: rest
    else .funcDecl n b :: setMainBody rest stmts
  | d :: rest => d :: setMainBody rest stmts

/-- `appendStatements` from session.go:
`s.mainBody.List = append(s.mainBody.List, stmts...)`. -/
def appendStatements (s : Session) (stmts : List GoStmt) : Session :=
  { s with fileDecls := setMainBody s.fileDecls (mainBody s.fileDecls ++ stmts) }

/-- `evalExpr` from session.go after a successful `parser.ParseExpr`: wrap
the expression in a print-helper call and append it to the entry-point
body.  (The parse itself is external; the parsed expression arrives as an
oracle value.) -/
def evalExprApply (s : Session) (expr : GoExpr) : Session :=
  appendStatements s [.callStmt printerName [expr]]

/-- The statement-list computation of `evalStmt` (session.go): if the last
parsed statement is an assignment, collect its left-hand sides that are not
the identifier "_"; when that list is non-empty append a print-helper call
carrying them. -/
def evalStmtOut (stmts : List GoStmt) : List GoStmt :=
  match stmts.getLast? with
  | some (.assign lhs _) =>
    let vs := lhs.filter fun v => !(isNamedIdent v "_")
    if vs.length > 0 then stmts ++ [.callStmt printerName vs] else stmts
  | _ => stmts

/-- `evalStmt` from session.go after a successful parse of
`package P; func F() SPACE-BRACE in BRACE`: compute the statement list
(with the synthesized print call for a final assignment) and append it to
the entry-point body. -/
def evalStmtApply (s : Session) (stmts : List GoStmt) : Session :=
  appendStatements s (evalStmtOut stmts)

/-- The in-place removal `s.file.Decls = append(s.file.Decls[:i],
s.file.Decls[i+1:]...)` guarded by the find-first-and-break loop of
`evalFunc`: drop the first function declaration with the given name. -/
def removeFirstFunc (decls : List GoDecl) (name : String) : List GoDecl :=
  match decls with
  | [] => []
  | .funcDecl n b :: rest =>
    if n = name then rest else .funcDecl n b :: removeFirstFunc rest name
  | d :: rest => d :: removeFirstFunc rest name

/-- `evalFunc` from session.go after a successful parse of
`package P; in`: the parsed file must hold exactly one declaration and it
must be a function declaration, otherwise "eval func error"; the first
existing function declaration of the same name is removed and the new one
is appended at the end of the declaration list. -/
def evalFuncApply (s : Session) (decls : List GoDecl) : Except String Session :=
  match decls with
  | [.funcDecl n b] =>
    .ok { s with fileDecls := removeFirstFunc s.fileDecls n ++ [.funcDecl n b] }
  | _ => .error "eval func error"

/-- One token produced by the external lexical scanner (go/scanner): either
legal or `token.ILLEGAL` with its literal. -/
inductive Token where
  | legal (lit : String)
  | illegal (lit : String)
deriving DecidableEq

/-- `parseTokens` from session.go: scan the token stream; report the first
illegal token as an error, otherwise succeed. -/
def parseTokens (tokens : List Token) : Option String :=
  match tokens with
  | [] => none
  | .legal _ :: rest => parseTokens rest
  | .illegal lit :: _ => some lit

/-- `storeCode` from session.go: snapshot the entry-point body statement
list and the top-level declaration list into the checkpoint fields. -/
def storeCode (s : Session) : Session :=
  { s with lastStmts := mainBody s.fileDecls, lastDecls := s.fileDecls }

/-- The rebuild loop of `restoreCode`: walk the current declarations; a
non-"main" function declaration is replaced by the checkpoint's declaration
of the same name when one exists and dropped otherwise; "main" and
non-function declarations pass through unchanged. -/
def restoreLoop (lastDecls : List GoDecl) (decls : List GoDecl) : List GoDecl :=
  match decls with
  | [] => []
  | .funcDecl n b :: rest =>
    if n = "main" then .funcDecl n b :: restoreLoop lastDecls rest
    else
      match findFunc lastDecls n with
      | some ld => ld :: restoreLoop lastDecls rest
      | none => restoreLoop lastDecls rest
  | d :: rest => d :: restoreLoop lastDecls rest

/-- `restoreCode` from session.go: first `s.mainBody.List = s.lastStmts`
(write the checkpoint statements through the entry-point body pointer),
then rebuild the declaration list with the loop above. -/
def restoreCode (s : Session) : Session :=
  { s with fileDecls := restoreLoop s.lastDecls (setMainBody s.fileDecls s.lastStmts) }

/-- Outcomes of the external parsers for one raw input, supplied as oracle
values: `exprParse` is the result of `parser.ParseExpr(in)`, `stmtParse`
the statement list extracted from parsing
`package P; func F() SPACE-BRACE in BRACE`, `fileParse` the declaration
list from parsing `package P; in`, and `tokens` the lexical scan of `in`.
`none` means the corresponding parse failed with a syntax error. -/
structure ParseOracle where
  exprParse : Option GoExpr
  stmtParse : Option (List GoStmt)
  fileParse : Option (List GoDecl)
  tokens : List Token
deriving DecidableEq

/-- Which interpretation the classification chain of `Session.Eval`
committed to. -/
inductive Classification where
  | exprKind
  | stmtKind
  | funcKind
  | scanError (lit : String)
  | incomplete
deriving DecidableEq

/-- The whole `evalFunc` attempt: a failed parse of `package P; in` and a
parse that does not produce exactly one function declaration both yield an
error. -/
def evalFuncResult (s : Session) (fileParse : Option (List GoDecl)) :
    Except String Session :=
  match fileParse with
  | none => .error "parse error"
  | some decls => evalFuncApply s decls

/-- Boolean success test for `Except`. -/
def exceptOk (e : Except String Session) : Bool :=
  match e with
  | .ok _ => true
  | .error _ => false

/-- The classification chain in the middle of `Session.Eval`: try
`evalExpr`; on error try `evalStmt`; on error try `evalFunc`; on error run
`parseTokens` and either fail with the illegal-token error or signal
continue.  Returns the possibly mutated session and the committed
interpretation. -/
def classifyAndSplice (s : Session) (o : ParseOracle) :
    Session × Classification :=
  match o.exprParse with
  | some e => (evalExprApply s e, .exprKind)
  | none =>
    match o.stmtParse with
    | some stmts => (evalStmtApply s stmts, .stmtKind)
    | none =>
      match evalFuncResult s o.fileParse with
      | .ok s1 => (s1, .funcKind)
      | .error _ =>
        match parseTokens o.tokens with
        | some lit => (s, .scanError lit)
        | none => (s, .incomplete)

/-- Result of `cmd.Run()` on the external toolchain: `success` is a nil
error; `exitStatus code` is an `*exec.ExitError` whose wait status carries
the given exit code; `otherFailure` is any other error. -/
inductive RunResult where
  | success
  | exitStatus (code : Nat)
  | otherFailure
deriving DecidableEq

/-- What `Session.Eval` returns: nil, `ErrContinue`, the illegal-token
error from `parseTokens`, or `ErrCmdRun`. -/
inductive EvalOutcome where
  | ok
  | errContinue
  | scanError (lit : String)
  | errCmdRun
deriving DecidableEq

/-- All external outcomes one `Eval` call consumes: the parse oracle, the
toolchain run result, and the goimports rewrite used when `autoImport` is
enabled (an arbitrary transformation of the declaration list, since the
facility is an external black box). -/
structure EvalOracle extends ParseOracle where
  runResult : RunResult
  fixImports : List GoDecl → List GoDecl

/-- `Session.Eval` for a non-command input: `storeCode` the checkpoint,
classify and splice, then (for the three committed interpretations) run
the toolchain; on exit status 2 pop the last input via `restoreCode`; any
run failure is reported as `ErrCmdRun`.  The command branch is modelled
separately by the `action…` functions; the quickfix passes are identity on
the modelled state (see the file comment). -/
def Eval (s : Session) (o : EvalOracle) : Session × EvalOutcome :=
  let s0 := storeCode s
  match classifyAndSplice s0 o.toParseOracle with
  | (s1, .scanError lit) => (s1, .scanError lit)
  | (s1, .incomplete) => (s1, .errContinue)
  | (s1, _) =>
    let s2 :=
      if s0.autoImport then { s1 with fileDecls := o.fixImports s1.fileDecls }
      else s1
    match o.runResult with
    | .success => (s2, .ok)
    | .exitStatus code =>
      if code = 2 then (restoreCode s2, .errCmdRun) else (s2, .errCmdRun)
    | .otherFailure => (s2, .errCmdRun)

/-- `strings.Trim(arg, QUOTE)` from `actionImport`: strip leading and
trailing double-quote characters. -/
def trimQuotes (arg : String) : String :=
  String.mk (((arg.toList.dropWhile (· == '"')).reverse.dropWhile (· == '"')).reverse)

/-- `strings.Contains(arg, " ")` from `actionImport`. -/
def containsSpace (arg : String) : Bool :=
  arg.toList.contains ' '

/-- The whitespace test of `strings.Fields` (restricted to the ASCII space
characters that matter here). -/
def isSpaceChar (c : Char) : Bool :=
  c == ' ' || c == '\t' || c == '\n' || c == '\r'

/-- `strings.Fields(arg)`: split on whitespace, dropping empty pieces. -/
def fields (arg : String) : List String :=
  (arg.split (fun c => isSpaceChar c)).filter (· != "")

/-- Documented behavior of the external `astutil.AddImport`: add the import
path to the file if not already present. -/
def astutilAddImport (imports : List String) (path : String) : List String :=
  if imports.contains path then imports else imports ++ [path]

/-- The single-path core of `actionImport` (commands.go): trim quotes,
validate importability through the external importer (`resolves` oracle);
on failure return the importer's error with no state change; on success
add the import. -/
def actionImportSingle (resolves : String → Bool) (s : Session) (arg : String) :
    Session × Option String :=
  let path := trimQuotes arg
  if resolves path then
    ({ s with imports := astutilAddImport s.imports path }, none)
  else (s, some "cannot import package")

/-- The space-separated loop of `actionImport`: recurse over the fields,
skipping empty ones, stopping at the first error (state mutated so far is
kept, as the Go code mutates the session in place). -/
def actionImportTokens (resolves : String → Bool) (s : Session)
    (args : List String) : Session × Option String :=
  match args with
  | [] => (s, none)
  | v :: rest =>
    if v = "" then actionImportTokens resolves s rest
    else
      match actionImportSingle resolves s v with
      | (s1, none) => actionImportTokens resolves s1 rest
      | (s1, some e) => (s1, some e)

/-- `actionImport` from commands.go: empty argument is an error; an
argument containing a space is split into fields and imported one by one;
otherwise the single-path core runs. -/
def actionImport (resolves : String → Bool) (s : Session) (arg : String) :
    Session × Option String :=
  if arg = "" then (s, some "argument is required")
  else if containsSpace arg then actionImportTokens resolves s (fields arg)
  else actionImportSingle resolves s arg

/-- `actionType` from commands.go: empty argument is an error; otherwise
`storeCode`, append a print-wrapped copy of the expression via `evalExpr`
(parse outcome and the type reported by the external `types.Check` arrive
as oracles), and `restoreCode` on every exit path (the Go code defers the
restore). -/
def actionType (exprParse : Option GoExpr) (typeOf : Option String)
    (s : Session) (arg : String) : Session × Except String String :=
  if arg = "" then (s, .error "argument is required")
  else
    let s0 := storeCode s
    match exprParse with
    | none => (restoreCode s0, .error "parse error")
    | some e =>
      let s1 := evalExprApply s0 e
      match typeOf with
      | none => (restoreCode s1, .error "cannot get type")
      | some t => (restoreCode s1, .ok t)

/-- Names of the user-defined (non-entry-point) function declarations, in
order.  The data-model invariant says these are unique. -/
def userFuncNames (decls : List GoDecl) : List String :=
  decls.filterMap fun d =>
    match d with
    | .funcDecl n _ => if n = "main" then none else some n
    | _ => none

/-- Number of function declarations carrying the given name. -/
def countFuncNamed (decls : List GoDecl) (name : String) : Nat :=
  (decls.filter fun d =>
    match d with
    | .funcDecl n _ => n = name
    | _ => false).length

/-- The priority contract of the input classifier, written from the spec's
words (spec section 4.1) for comparison with the code's `classifyAndSplice`:
expression first, then statement list, then declaration (which also
requires the parse to deliver exactly one function declaration), then the
token-scan fallback. -/
def expectedClassification (s : Session) (o : ParseOracle) : Classification :=
  if o.exprParse.isSome then .exprKind
  else if o.stmtParse.isSome then .stmtKind
  else if exceptOk (evalFuncResult s o.fileParse) then .funcKind
  else
    match parseTokens o.tokens with
    | some lit => .scanError lit
    | none => .incomplete

/-- The restore contract, written from the spec's words (spec section 4.3)
for comparison with the code's `restoreCode`: overwrite the entry-point
body with the checkpoint statements, keep non-function declarations and
the entry point, replace every other function declaration with the
checkpoint's same-named version or drop it. -/
def restoreSpec (lastStmts : List GoStmt) (lastDecls : List GoDecl)
    (decls : List GoDecl) : List GoDecl :=
  (setMainBody decls lastStmts).filterMap fun d =>
    match d with
    | .funcDecl n b =>
      if n = "main" then some (.funcDecl n b) else findFunc lastDecls n
    | d1 => some d1

/-! Concrete sessions and oracle instances used to evaluate the theorems on
explicit inputs. -/

/-- A small session: entry point with one statement, one user function,
one non-function declaration, no pending checkpoint data. -/
def sBase : Session :=
  { fileDecls :=
      [.funcDecl "main" [.raw "x := 1"],
       .funcDecl "f" [.raw "return 1"],
       .genDecl "var limit = 10"],
    imports := ["fmt"],
    lastStmts := [],
    lastDecls := [],
    autoImport := false }

/-- Oracle: the input parses as the expression `x` and the run exits with
the designated fault status 2. -/
def oFault : EvalOracle :=
  { exprParse := some (.ident "x"),
    stmtParse := none,
    fileParse := none,
    tokens := [],
    runResult := .exitStatus 2,
    fixImports := fun l => l }

/-- Oracle: the input parses as the expression `x` and the run exits with
the generic failure status 1 (for example the program called `os.Exit(1)`,
or the toolchain rejected the program with a status other than 2). -/
def oGenericFail : EvalOracle :=
  { exprParse := some (.ident "x"),
    stmtParse := none,
    fileParse := none,
    tokens := [],
    runResult := .exitStatus 1,
    fixImports := fun l => l }

/-- Oracle: the input parses only as a declaration redefining the function
`f`, and the run exits with the designated fault status 2. -/
def oDeclRedef : EvalOracle :=
  { exprParse := none,
    stmtParse := none,
    fileParse := some [.funcDecl "f" [.raw "return 2"]],
    tokens := [],
    runResult := .exitStatus 2,
    fixImports := fun l => l }

/-- The base session with automatic import normalization enabled. -/
def sAuto : Session :=
  { sBase with autoImport := true }

/-- Oracle: the input parses as the expression `x`, the run exits with the
designated fault status 2, and the import normalization (active because
`autoImport` is on) adds an import declaration to the file. -/
def oAutoFault : EvalOracle :=
  { exprParse := some (.ident "x"),
    stmtParse := none,
    fileParse := none,
    tokens := [],
    runResult := .exitStatus 2,
    fixImports := fun l => l ++ [.genDecl "import strings"] }

/-- Oracle for the input `import "fmt"`: it parses neither as an expression
nor as a statement list, parses as a file holding one non-function
declaration, and scans without illegal tokens. -/
def oImportDecl : ParseOracle :=
  { exprParse := none,
    stmtParse := none,
    fileParse := some [.genDecl "import fmt"],
    tokens := [.legal "import", .legal "fmt"] }

/-- Oracle: nothing parses and the token scan finds no illegal token (an
incomplete input such as an unterminated brace). -/
def oIncomplete : EvalOracle :=
  { exprParse := none,
    stmtParse := none,
    fileParse := none,
    tokens := [.legal "if", .legal "true"],
    runResult := .success,
    fixImports := fun l => l }

/-- The statement list for the input `x, _ := foo()`: one multi-value
assignment whose second left-hand variable is the discard placeholder. -/
def stmtsAssign : List GoStmt :=
  [.assign [.ident "x", .ident "_"] "foo()"]

/-- An importer oracle that resolves exactly the package path "fmt". -/
def resolvesFmt : String → Bool := fun p => p == "fmt"

/-- A session with a live checkpoint: since the checkpoint was taken, a
statement was appended to the entry point, function `f` was redefined, and
a new function `h` was introduced. -/
def sRestore : Session :=
  { fileDecls :=
      [.funcDecl "main" [.raw "x := 1", .raw "y := 2"],
       .funcDecl "f" [.raw "return 20"],
       .funcDecl "h" [.raw "return 30"],
       .genDecl "var limit = 10"],
    imports := ["fmt"],
    lastStmts := [.raw "x := 1"],
    lastDecls :=
      [.funcDecl "main" [.raw "x := 1"],
       .funcDecl "f" [.raw "return 10"],
       .genDecl "var limit = 10"],
    autoImport := false }

/-! Helper lemmas about the embedded operations. -/

theorem findFunc_shape (l : List GoDecl) (name : String) (d : GoDecl)
    (h : findFunc l name = some d) : ∃ b, d = .funcDecl name b := by
  induction l with
  | nil => simp [findFunc] at h
  | cons hd rest ih =>
    cases hd with
    | funcDecl n b =>
      simp only [findFunc] at h
      split at h
      · rename_i heq
        subst heq
        injection h with h2
        exact ⟨b, h2.symm⟩
      · exact ih h
    | genDecl s0 =>
      simp only [findFunc] at h
      exact ih h

theorem setMainBody_setMainBody (l : List GoDecl) (b1 b2 : List GoStmt) :
    setMainBody (setMainBody l b1) b2 = setMainBody l b2 := by
  induction l with
  | nil => rfl
  | cons hd rest ih =>
    cases hd with
    | funcDecl n b =>
      by_cases heq : n = "main"
      · simp [setMainBody, heq]
      · simp [setMainBody, heq, ih]
    | genDecl s0 => simp [setMainBody, ih]

theorem setMainBody_mainBody (l : List GoDecl) :
    setMainBody l (mainBody l) = l := by
  induction l with
  | nil => rfl
  | cons hd rest ih =>
    cases hd with
    | funcDecl n b =>
      by_cases heq : n = "main"
      · simp [setMainBody, mainBody, findFunc, heq]
      · simp only [mainBody, findFunc, heq]
        simp only [mainBody] at ih
        simp [setMainBody, heq, ih]
    | genDecl s0 =>
      simp only [mainBody, findFunc]
      simp only [mainBody] at ih
      simp [setMainBody, ih]

theorem mainBody_setMainBody (l : List GoDecl) (b : List GoStmt)
    (h : hasMain l = true) : mainBody (setMainBody l b) = b := by
  induction l with
  | nil => simp [hasMain, findFunc] at h
  | cons hd rest ih =>
    cases hd with
    | funcDecl n b0 =>
      by_cases heq : n = "main"
      · simp [setMainBody, mainBody, findFunc, heq]
      · simp only [hasMain, findFunc, heq, if_false] at h
        simp [setMainBody, mainBody, findFunc, heq]
        simp only [mainBody] at ih
        exact ih h
    | genDecl s0 =>
      simp only [hasMain, findFunc] at h
      simp [setMainBody, mainBody, findFunc]
      simp only [mainBody] at ih
      exact ih h

theorem mainBody_restoreLoop (L l : List GoDecl) :
    mainBody (restoreLoop L l) = mainBody l := by
  induction l with
  | nil => rfl
  | cons hd rest ih =>
    cases hd with
    | funcDecl n b =>
      by_cases heq : n = "main"
      · simp [restoreLoop, mainBody, findFunc, heq]
      · simp only [restoreLoop, heq, if_false]
        cases hf : findFunc L n with
        | none =>
          simp only [mainBody, findFunc, heq, if_false]
          simp only [mainBody] at ih
          exact ih
        | some ld =>
          obtain ⟨b2, rfl⟩ := findFunc_shape L n ld hf
          simp only [mainBody, findFunc, heq, if_false]
          simp only [mainBody] at ih
          exact ih
    | genDecl s0 =>
      simp only [restoreLoop, mainBody, findFunc]
      simp only [mainBody] at ih
      exact ih

theorem setMainBody_restoreLoop (L l : List GoDecl) (b : List GoStmt) :
    setMainBody (restoreLoop L l) b = restoreLoop L (setMainBody l b) := by
  induction l with
  | nil => rfl
  | cons hd rest ih =>
    cases hd with
    | funcDecl n b0 =>
      by_cases heq : n = "main"
      · simp [restoreLoop, setMainBody, heq]
      · simp only [restoreLoop, setMainBody, heq, if_false]
        cases hf : findFunc L n with
        | none => simpa using ih
        | some ld =>
          obtain ⟨b2, rfl⟩ := findFunc_shape L n ld hf
          simp [restoreLoop, setMainBody, heq, hf, ih]
    | genDecl s0 => simp [restoreLoop, setMainBody, ih]

theorem restoreLoop_restoreLoop (L l : List GoDecl) :
    restoreLoop L (restoreLoop L l) = restoreLoop L l := by
  induction l with
  | nil => rfl
  | cons hd rest ih =>
    cases hd with
    | funcDecl n b =>
      by_cases heq : n = "main"
      · simp [restoreLoop, heq, ih]
      · simp only [restoreLoop, heq, if_false]
        cases hf : findFunc L n with
        | none => exact ih
        | some ld =>
          obtain ⟨b2, rfl⟩ := findFunc_shape L n ld hf
          simp [restoreLoop, heq, hf, ih]
    | genDecl s0 => simp [restoreLoop, ih]

theorem mem_userFuncNames (l : List GoDecl) (n : String) (b : List GoStmt)
    (hm : GoDecl.funcDecl n b ∈ l) (hn : n ≠ "main") :
    n ∈ userFuncNames l := by
  induction l with
  | nil => simp at hm
  | cons hd rest ih =>
    rcases List.mem_cons.mp hm with h1 | h1
    · subst h1
      simp [userFuncNames, List.filterMap_cons, hn]
    · cases hd with
      | funcDecl m bm =>
        by_cases hm2 : m = "main"
        · simpa [userFuncNames, List.filterMap_cons, hm2] using ih h1
        · simp [userFuncNames, List.filterMap_cons, hm2]
          right
          simpa [userFuncNames] using ih h1
      | genDecl s0 =>
        simpa [userFuncNames, List.filterMap_cons] using ih h1

theorem findFunc_of_nodup (L : List GoDecl) (n : String) (b : List GoStmt)
    (hnd : (userFuncNames L).Nodup) (hm : GoDecl.funcDecl n b ∈ L)
    (hn : n ≠ "main") : findFunc L n = some (.funcDecl n b) := by
  induction L with
  | nil => simp at hm
  | cons hd rest ih =>
    rcases List.mem_cons.mp hm with h1 | h1
    · subst h1
      simp [findFunc]
    · cases hd with
      | funcDecl m bm =>
        by_cases hm2 : m = "main"
        · have hne : m ≠ n := fun h => hn (h ▸ hm2)
          have hnd2 : (userFuncNames rest).Nodup := by
            simpa [userFuncNames, List.filterMap_cons, hm2] using hnd
          simp only [findFunc, hne, if_false]
          exact ih hnd2 h1
        · have hl : userFuncNames (GoDecl.funcDecl m bm :: rest) =
              m :: userFuncNames rest := by
            simp [userFuncNames, List.filterMap_cons, hm2]
          rw [hl] at hnd
          have hnotin := (List.nodup_cons.mp hnd).1
          have hnd2 := (List.nodup_cons.mp hnd).2
          have hin : n ∈ userFuncNames rest := mem_userFuncNames rest n b h1 hn
          have hne : m ≠ n := fun h => hnotin (h ▸ hin)
          simp only [findFunc, hne, if_false]
          exact ih hnd2 h1
      | genDecl s0 =>
        have hnd2 : (userFuncNames rest).Nodup := by
          simpa [userFuncNames, List.filterMap_cons] using hnd
        simp only [findFunc]
        exact ih hnd2 h1

theorem restoreLoop_id_of (L l : List GoDecl)
    (h : ∀ n b, GoDecl.funcDecl n b ∈ l → n ≠ "main" →
      findFunc L n = some (.funcDecl n b)) :
    restoreLoop L l = l := by
  induction l with
  | nil => rfl
  | cons hd rest ih =>
    have hrest : ∀ n b, GoDecl.funcDecl n b ∈ rest → n ≠ "main" →
        findFunc L n = some (.funcDecl n b) :=
      fun n b hm hn => h n b (List.mem_cons.mpr (Or.inr hm)) hn
    cases hd with
    | funcDecl n b =>
      by_cases heq : n = "main"
      · simp [restoreLoop, heq, ih hrest]
      · have hf := h n b (List.mem_cons.mpr (Or.inl rfl)) heq
        simp [restoreLoop, heq, hf, ih hrest]
    | genDecl s0 => simp [restoreLoop, ih hrest]

theorem restoreLoop_self (l : List GoDecl) (h : (userFuncNames l).Nodup) :
    restoreLoop l l = l :=
  restoreLoop_id_of l l fun n b hm hn => findFunc_of_nodup l n b h hm hn

theorem restore_store_main (s : Session) (nb : List GoStmt)
    (h : (userFuncNames s.fileDecls).Nodup) :
    (restoreCode { storeCode s with fileDecls := setMainBody s.fileDecls nb }).fileDecls
      = s.fileDecls := by
  show restoreLoop s.fileDecls
      (setMainBody (setMainBody s.fileDecls nb) (mainBody s.fileDecls))
    = s.fileDecls
  rw [setMainBody_setMainBody, setMainBody_mainBody, restoreLoop_self _ h]

theorem restore_after_store (s : Session)
    (h : (userFuncNames s.fileDecls).Nodup) :
    restoreCode (storeCode s) = storeCode s := by
  cases s with
  | mk fd im ls ld ai =>
    simp only [restoreCode, storeCode, setMainBody_mainBody]
    simp [restoreLoop_self fd h]

theorem parseTokens_eq_none_iff (toks : List Token) :
    parseTokens toks = none ↔ ∀ lit, Token.illegal lit ∉ toks := by
  induction toks with
  | nil => simp [parseTokens]
  | cons hd rest ih =>
    cases hd with
    | legal l0 => simp [parseTokens, ih]
    | illegal l0 =>
      simp only [parseTokens]
      constructor
      · intro h; cases h
      · intro h
        exact absurd (List.mem_cons.mpr (Or.inl rfl)) (h l0)

theorem removeFirstFunc_of_count_zero (l : List GoDecl) (f : String)
    (h : countFuncNamed l f = 0) : removeFirstFunc l f = l := by
  induction l with
  | nil => rfl
  | cons hd rest ih =>
    cases hd with
    | funcDecl n b =>
      by_cases heq : n = f
      · simp [countFuncNamed, List.filter_cons, heq] at h
      · simp only [countFuncNamed, List.filter_cons] at h
        simp only [heq, decide_False] at h
        simp only [countFuncNamed] at ih
        simp [removeFirstFunc, heq, ih h]
    | genDecl s0 =>
      simp only [countFuncNamed, List.filter_cons] at h
      simp only [countFuncNamed] at ih
      simp [removeFirstFunc, ih h]

theorem findFunc_of_count_zero (l : List GoDecl) (f : String)
    (h : countFuncNamed l f = 0) : findFunc l f = none := by
  induction l with
  | nil => rfl
  | cons hd rest ih =>
    cases hd with
    | funcDecl n b =>
      by_cases heq : n = f
      · simp [countFuncNamed, List.filter_cons, heq] at h
      · simp only [countFuncNamed, List.filter_cons] at h
        simp only [heq, decide_False] at h
        simp only [countFuncNamed] at ih
        simp [findFunc, heq, ih h]
    | genDecl s0 =>
      simp only [countFuncNamed, List.filter_cons] at h
      simp only [countFuncNamed] at ih
      simp [findFunc, ih h]

theorem restoreLoop_eq_filterMap (L l : List GoDecl) :
    restoreLoop L l = l.filterMap fun d =>
      match d with
      | .funcDecl n b =>
        if n = "main" then some (.funcDecl n b) else findFunc L n
      | d1 => some d1 := by
  induction l with
  | nil => rfl
  | cons hd rest ih =>
    cases hd with
    | funcDecl n b =>
      by_cases heq : n = "main"
      · simp [restoreLoop, List.filterMap_cons, heq, ih]
      · simp only [restoreLoop, List.filterMap_cons, heq, if_false]
        cases hf : findFunc L n with
        | none => simp [ih]
        | some ld => simp [ih]
    | genDecl s0 => simp [restoreLoop, List.filterMap_cons, ih]

theorem storeCode_fileDecls (s : Session) :
    (storeCode s).fileDecls = s.fileDecls := rfl

theorem storeCode_imports (s : Session) :
    (storeCode s).imports = s.imports := rfl

theorem storeCode_autoImport (s : Session) :
    (storeCode s).autoImport = s.autoImport := rfl

theorem restoreCode_imports (s : Session) :
    (restoreCode s).imports = s.imports := rfl

theorem restore_after_append (s : Session) (stmts : List GoStmt)
    (hnodup : (userFuncNames s.fileDecls).Nodup) :
    (restoreCode (appendStatements (storeCode s) stmts)).fileDecls
      = s.fileDecls :=
  restore_store_main s (mainBody s.fileDecls ++ stmts) hnodup

theorem mainBody_appendStatements (s : Session) (stmts : List GoStmt)
    (hmain : hasMain s.fileDecls = true) :
    mainBody (appendStatements s stmts).fileDecls
      = mainBody s.fileDecls ++ stmts :=
  mainBody_setMainBody s.fileDecls (mainBody s.fileDecls ++ stmts) hmain

theorem removeFirstFunc_append (l : List GoDecl) (f : String)
    (b : List GoStmt) (h : countFuncNamed l f = 0) :
    removeFirstFunc (l ++ [.funcDecl f b]) f = l := by
  induction l with
  | nil => simp [removeFirstFunc]
  | cons hd rest ih =>
    cases hd with
    | funcDecl n b0 =>
      by_cases heq : n = f
      · simp [countFuncNamed, List.filter_cons, heq] at h
      · simp only [countFuncNamed, List.filter_cons] at h
        simp only [heq, decide_False] at h
        simp only [countFuncNamed] at ih
        simp [removeFirstFunc, heq, ih h]
    | genDecl s0 =>
      simp only [countFuncNamed, List.filter_cons] at h
      simp only [countFuncNamed] at ih
      simp [removeFirstFunc, ih h]

theorem countFuncNamed_append (l1 l2 : List GoDecl) (f : String) :
    countFuncNamed (l1 ++ l2) f = countFuncNamed l1 f + countFuncNamed l2 f := by
  simp [countFuncNamed, List.filter_append]

theorem findFunc_append_of_none (l1 l2 : List GoDecl) (f : String)
    (h : findFunc l1 f = none) : findFunc (l1 ++ l2) f = findFunc l2 f := by
  induction l1 with
  | nil => rfl
  | cons hd rest ih =>
    cases hd with
    | funcDecl n b =>
      by_cases heq : n = f
      · simp [findFunc, heq] at h
      · simp only [findFunc, heq, if_false] at h ⊢
        exact ih h
    | genDecl s0 =>
      simp only [findFunc] at h ⊢
      exact ih h

theorem setMainBody_append_nonmain (l : List GoDecl) (f : String)
    (b b0 : List GoStmt) (hf : f ≠ "main") :
    setMainBody (l ++ [.funcDecl f b]) b0
      = setMainBody l b0 ++ [.funcDecl f b] := by
  induction l with
  | nil => simp [setMainBody, hf]
  | cons hd rest ih =>
    cases hd with
    | funcDecl n b1 =>
      by_cases heq : n = "main"
      · simp [setMainBody, heq]
      · simp [setMainBody, heq, ih]
    | genDecl s0 => simp [setMainBody, ih]

theorem setMainBody_removeFirstFunc (l : List GoDecl) (f : String)
    (b0 : List GoStmt) (hf : f ≠ "main") :
    setMainBody (removeFirstFunc l f) b0
      = removeFirstFunc (setMainBody l b0) f := by
  induction l with
  | nil => rfl
  | cons hd rest ih =>
    cases hd with
    | funcDecl n b =>
      by_cases heqf : n = f
      · subst heqf
        simp [removeFirstFunc, setMainBody, hf]
      · by_cases heqm : n = "main"
        · subst heqm
          simp [removeFirstFunc, setMainBody, heqf]
        · simp [removeFirstFunc, setMainBody, heqf, heqm, ih]
    | genDecl s0 => simp [removeFirstFunc, setMainBody, ih]

theorem restoreLoop_append (L l1 l2 : List GoDecl) :
    restoreLoop L (l1 ++ l2) = restoreLoop L l1 ++ restoreLoop L l2 := by
  induction l1 with
  | nil => rfl
  | cons hd rest ih =>
    cases hd with
    | funcDecl n b =>
      by_cases heq : n = "main"
      · simp [restoreLoop, heq, ih]
      · simp only [List.cons_append, restoreLoop, heq, if_false]
        cases hf : findFunc L n with
        | none => simp [ih]
        | some ld => simp [ih]
    | genDecl s0 => simp [restoreLoop, ih]

theorem mem_removeFirstFunc (l : List GoDecl) (f : String) (d : GoDecl)
    (h : d ∈ removeFirstFunc l f) : d ∈ l := by
  induction l with
  | nil => simp [removeFirstFunc] at h
  | cons hd rest ih =>
    cases hd with
    | funcDecl n b =>
      by_cases heq : n = f
      · simp only [removeFirstFunc, heq, if_pos] at h
        exact List.mem_cons.mpr (Or.inr h)
      · simp only [removeFirstFunc, heq, if_false] at h
        rcases List.mem_cons.mp h with h1 | h1
        · exact List.mem_cons.mpr (Or.inl h1)
        · exact List.mem_cons.mpr (Or.inr (ih h1))
    | genDecl s0 =>
      simp only [removeFirstFunc] at h
      rcases List.mem_cons.mp h with h1 | h1
      · exact List.mem_cons.mpr (Or.inl h1)
      · exact List.mem_cons.mpr (Or.inr (ih h1))

theorem restore_after_funcSplice (s : Session) (f : String) (b : List GoStmt)
    (hnodup : (userFuncNames s.fileDecls).Nodup) (hf : f ≠ "main") :
    (restoreCode { storeCode s with
        fileDecls := removeFirstFunc s.fileDecls f ++ [.funcDecl f b] }).fileDecls
      = removeFirstFunc s.fileDecls f ++
        (match findFunc s.fileDecls f with
         | some d => [d]
         | none => []) := by
  show restoreLoop s.fileDecls
      (setMainBody (removeFirstFunc s.fileDecls f ++ [.funcDecl f b])
        (mainBody s.fileDecls)) = _
  rw [setMainBody_append_nonmain _ _ _ _ hf,
    setMainBody_removeFirstFunc _ _ _ hf, setMainBody_mainBody,
    restoreLoop_append]
  have hleft : restoreLoop s.fileDecls (removeFirstFunc s.fileDecls f)
      = removeFirstFunc s.fileDecls f :=
    restoreLoop_id_of _ _ fun n b0 hm hn =>
      findFunc_of_nodup _ n b0 hnodup (mem_removeFirstFunc _ _ _ hm) hn
  rw [hleft]
  congr 1
  simp only [restoreLoop, hf, if_false]

theorem Eval_run_reduction (s : Session) (o : EvalOracle) (t : Session)
    (k : Classification) (hauto : s.autoImport = false)
    (hc : classifyAndSplice (storeCode s) o.toParseOracle = (t, k))
    (hk : k = .exprKind ∨ k = .stmtKind ∨ k = .funcKind) :
    (o.runResult = .success → Eval s o = (t, .ok)) ∧
    (∀ c, o.runResult = .exitStatus c →
      Eval s o = if c = 2 then (restoreCode t, .errCmdRun) else (t, .errCmdRun)) ∧
    (o.runResult = .otherFailure → Eval s o = (t, .errCmdRun)) := by
  rcases hk with rfl | rfl | rfl
  all_goals refine ⟨fun h => ?_, fun c h => ?_, fun h => ?_⟩
  all_goals simp [Eval, hc, storeCode_autoImport, hauto, h]

theorem astutilAddImport_idem (l : List String) (p : String) :
    astutilAddImport (astutilAddImport l p) p = astutilAddImport l p := by
  unfold astutilAddImport
  by_cases hc : p ∈ l
  · simp [hc]
  · have hm : p ∈ l ++ [p] := by simp
    simp [hc, hm]

theorem count_astutilAddImport (l : List String) (p : String)
    (h : l.count p ≤ 1) : (astutilAddImport l p).count p = 1 := by
  unfold astutilAddImport
  by_cases hc : p ∈ l
  · have h1 : 0 < l.count p := List.count_pos_iff.mpr hc
    simp [hc]
    omega
  · have h0 : l.count p = 0 := List.count_eq_zero.mpr hc
    simp [hc, h0]

/-! The claims. -/

/-- C2 (counterexample): the classifier does not always commit to the first
interpretation that parses without lexical or syntactic error.  For the
input `import "fmt"` the declaration interpretation parses (one non-function
declaration), yet the classifier falls through to the token-scan fallback
and reports the input as incomplete. -/
theorem classify_commits_past_successful_decl_parse :
    (classifyAndSplice sBase oImportDecl).2 = .incomplete ∧
    oImportDecl.fileParse.isSome = true := by
  constructor
  · rfl
  · rfl

/-- C2 (amended): classification attempts expression, statement list,
declaration, then token scan, in strict priority order, committing to the
first interpretation that succeeds — where the expression and statement
interpretations succeed exactly when they parse, but the declaration
interpretation succeeds only when the parse additionally yields exactly one
function declaration; a declaration parse that succeeds with any other
shape also falls through to the token scan. -/
theorem classify_strict_priority (s : Session) (o : ParseOracle) :
    (classifyAndSplice s o).2 = expectedClassification s o := by
  unfold classifyAndSplice expectedClassification
  cases he : o.exprParse with
  | some e => simp
  | none =>
    cases hs : o.stmtParse with
    | some st => simp
    | none =>
      cases hf : evalFuncResult s o.fileParse with
      | ok s1 => simp [exceptOk, hf]
      | error msg =>
        cases ht : parseTokens o.tokens with
        | some lit => simp [exceptOk, hf, ht]
        | none => simp [exceptOk, hf, ht]

/-- C3 (counterexample): redefining a function does not replace the old
declaration in place.  In a session whose declarations are
`main`, `f` (old body), then a var declaration, submitting a new `f` yields
`main`, the var declaration, then the new `f` — the new declaration is
appended at the end, not put at `f`'s old position. -/
theorem evalFunc_redefinition_is_appended :
    evalFuncApply sBase [.funcDecl "f" [.raw "return 2"]] =
      .ok { sBase with fileDecls :=
        [.funcDecl "main" [.raw "x := 1"],
         .genDecl "var limit = 10",
         .funcDecl "f" [.raw "return 2"]] } ∧
    ([GoDecl.funcDecl "main" [.raw "x := 1"],
      .genDecl "var limit = 10",
      .funcDecl "f" [.raw "return 2"]] ≠
     [GoDecl.funcDecl "main" [.raw "x := 1"],
      .funcDecl "f" [.raw "return 2"],
      .genDecl "var limit = 10"]) := by
  constructor
  · rfl
  · decide

/-- C3 (amended): for a function name `f` not yet declared, submitting a
declaration of `f` and then a second declaration of `f` with a different
body leaves exactly one top-level declaration named `f`, holding the latest
body; the old declaration is removed and the new one is appended at the end
of the declaration sequence. -/
theorem evalFunc_redefine_unique_latest (s : Session) (f : String)
    (b1 b2 : List GoStmt) (hfresh : countFuncNamed s.fileDecls f = 0) :
    ∃ s1 s2,
      evalFuncApply s [.funcDecl f b1] = .ok s1 ∧
      evalFuncApply s1 [.funcDecl f b2] = .ok s2 ∧
      s2.fileDecls = s.fileDecls ++ [.funcDecl f b2] ∧
      countFuncNamed s2.fileDecls f = 1 ∧
      findFunc s2.fileDecls f = some (.funcDecl f b2) := by
  have e1 : removeFirstFunc s.fileDecls f = s.fileDecls :=
    removeFirstFunc_of_count_zero s.fileDecls f hfresh
  refine ⟨_, _, rfl, rfl, ?_, ?_, ?_⟩
  · show removeFirstFunc (removeFirstFunc s.fileDecls f ++ [.funcDecl f b1]) f
        ++ [.funcDecl f b2] = s.fileDecls ++ [.funcDecl f b2]
    rw [e1, removeFirstFunc_append s.fileDecls f b1 hfresh]
  · show countFuncNamed
        (removeFirstFunc (removeFirstFunc s.fileDecls f ++ [.funcDecl f b1]) f
          ++ [.funcDecl f b2]) f = 1
    rw [e1, removeFirstFunc_append s.fileDecls f b1 hfresh,
      countFuncNamed_append, hfresh]
    simp [countFuncNamed]
  · show findFunc
        (removeFirstFunc (removeFirstFunc s.fileDecls f ++ [.funcDecl f b1]) f
          ++ [.funcDecl f b2]) f = some (.funcDecl f b2)
    rw [e1, removeFirstFunc_append s.fileDecls f b1 hfresh,
      findFunc_append_of_none _ _ _ (findFunc_of_count_zero s.fileDecls f hfresh)]
    simp [findFunc]

/-- C3 (witness): the amended theorem evaluated on a concrete session with
no declaration named `g`. -/
theorem evalFunc_redefine_unique_latest_witness :
    countFuncNamed sBase.fileDecls "g" = 0 ∧
    ∃ s1 s2,
      evalFuncApply sBase [.funcDecl "g" [.raw "return 1"]] = .ok s1 ∧
      evalFuncApply s1 [.funcDecl "g" [.raw "return 2"]] = .ok s2 ∧
      s2.fileDecls = sBase.fileDecls ++ [.funcDecl "g" [.raw "return 2"]] ∧
      countFuncNamed s2.fileDecls "g" = 1 ∧
      findFunc s2.fileDecls "g" = some (.funcDecl "g" [.raw "return 2"]) :=
  ⟨by decide,
   evalFunc_redefine_unique_latest sBase "g" [.raw "return 1"] [.raw "return 2"]
     (by decide)⟩

/-- C4: when the final parsed statement of a statement-list input is a
multi-value assignment, the appended statements end with a print-helper
call whose arguments are exactly the non-discarded left-hand variables, in
order; when every left-hand side is the discard placeholder, no print call
is appended. -/
theorem evalStmt_prints_nondiscarded_lhs (s : Session) (stmts : List GoStmt)
    (lhs : List GoExpr) (rhs : String)
    (hmain : hasMain s.fileDecls = true)
    (hlast : stmts.getLast? = some (.assign lhs rhs))
    (_hmulti : 2 ≤ lhs.length) :
    mainBody (evalStmtApply s stmts).fileDecls =
      mainBody s.fileDecls ++ stmts ++
        (if (lhs.filter fun v => !(isNamedIdent v "_")).length > 0 then
          [GoStmt.callStmt printerName (lhs.filter fun v => !(isNamedIdent v "_"))]
        else []) := by
  have h := mainBody_appendStatements s (evalStmtOut stmts) hmain
  show mainBody (appendStatements s (evalStmtOut stmts)).fileDecls = _
  rw [h]
  unfold evalStmtOut
  rw [hlast]
  by_cases hv : (lhs.filter fun v => !(isNamedIdent v "_")).length > 0
  · simp only [hv, if_true, List.append_assoc]
  · simp only [hv, if_false, List.append_nil]

/-- C4 (witness): submitting `x, _ := foo()` appends a print of `x` only;
the discarded variable is excluded. -/
theorem evalStmt_prints_nondiscarded_lhs_witness :
    hasMain sBase.fileDecls = true ∧
    stmtsAssign.getLast? = some (.assign [.ident "x", .ident "_"] "foo()") ∧
    mainBody (evalStmtApply sBase stmtsAssign).fileDecls =
      mainBody sBase.fileDecls ++ stmtsAssign ++
        (if (([GoExpr.ident "x", .ident "_"].filter
              fun v => !(isNamedIdent v "_")).length > 0) then
          [GoStmt.callStmt printerName
            ([GoExpr.ident "x", .ident "_"].filter fun v => !(isNamedIdent v "_"))]
        else []) :=
  ⟨by decide, by decide,
   evalStmt_prints_nondiscarded_lhs sBase stmtsAssign
     [.ident "x", .ident "_"] "foo()" (by decide) (by decide) (by decide)⟩

/-- C5: `restoreCode` overwrites the entry-point body with the checkpoint's
statement sequence, and the rebuilt declaration sequence keeps every
non-entry-point non-function declaration as-is, replaces every function
declaration currently present by the checkpoint's same-named version when
one exists, and drops it entirely otherwise. -/
theorem restoreCode_meets_restore_contract (s : Session)
    (hmain : hasMain s.fileDecls = true) :
    mainBody (restoreCode s).fileDecls = s.lastStmts ∧
    (restoreCode s).fileDecls = restoreSpec s.lastStmts s.lastDecls s.fileDecls := by
  constructor
  · show mainBody (restoreLoop s.lastDecls (setMainBody s.fileDecls s.lastStmts))
        = s.lastStmts
    rw [mainBody_restoreLoop, mainBody_setMainBody _ _ hmain]
  · show restoreLoop s.lastDecls (setMainBody s.fileDecls s.lastStmts) = _
    rw [restoreLoop_eq_filterMap]
    rfl

/-- C5 (witness): the restore contract evaluated on a session with a live
checkpoint where one current function is replaced by the checkpoint version
and one function introduced after the checkpoint is dropped. -/
theorem restoreCode_meets_restore_contract_witness :
    hasMain sRestore.fileDecls = true ∧
    (mainBody (restoreCode sRestore).fileDecls = sRestore.lastStmts ∧
     (restoreCode sRestore).fileDecls =
       restoreSpec sRestore.lastStmts sRestore.lastDecls sRestore.fileDecls) :=
  ⟨by decide, restoreCode_meets_restore_contract sRestore (by decide)⟩

/-- C6: `restoreCode` is idempotent — a second call changes nothing — and
calling it right after `storeCode` with no intervening change is a no-op in
effect (given the invariant that user function names are unique). -/
theorem restoreCode_idempotent_and_noop (s : Session)
    (hnodup : (userFuncNames s.fileDecls).Nodup) :
    restoreCode (restoreCode s) = restoreCode s ∧
    restoreCode (storeCode s) = storeCode s := by
  refine ⟨?_, restore_after_store s hnodup⟩
  cases s with
  | mk fd im ls ld ai =>
    simp only [restoreCode]
    rw [setMainBody_restoreLoop, setMainBody_setMainBody, restoreLoop_restoreLoop]

/-- C6 (witness): idempotence and the store-then-restore no-op evaluated on
a concrete session with a live checkpoint. -/
theorem restoreCode_idempotent_and_noop_witness :
    (userFuncNames sRestore.fileDecls).Nodup ∧
    (restoreCode (restoreCode sRestore) = restoreCode sRestore ∧
     restoreCode (storeCode sRestore) = storeCode sRestore) :=
  ⟨by decide, restoreCode_idempotent_and_noop sRestore (by decide)⟩

/-- C7: importing the same package path twice leaves exactly one import of
that path — `actionImport` validates the path through the importer and the
add step deduplicates by path. -/
theorem actionImport_idempotent_per_path (resolves : String → Bool)
    (s : Session) (arg : String)
    (hne : arg ≠ "") (hsp : containsSpace arg = false)
    (hres : resolves (trimQuotes arg) = true)
    (hcount : s.imports.count (trimQuotes arg) ≤ 1) :
    (actionImport resolves s arg).2 = none ∧
    (actionImport resolves (actionImport resolves s arg).1 arg).2 = none ∧
    (actionImport resolves (actionImport resolves s arg).1 arg).1.imports.count
      (trimQuotes arg) = 1 := by
  have key : ∀ t : Session, actionImport resolves t arg =
      ({ t with imports := astutilAddImport t.imports (trimQuotes arg) }, none) := by
    intro t
    simp [actionImport, hne, hsp, actionImportSingle, hres]
  rw [key s]
  refine ⟨rfl, ?_, ?_⟩
  · rw [key]
  · rw [key]
    show (astutilAddImport (astutilAddImport s.imports (trimQuotes arg))
        (trimQuotes arg)).count (trimQuotes arg) = 1
    rw [astutilAddImport_idem]
    exact count_astutilAddImport s.imports (trimQuotes arg) hcount

/-- C7 (witness): importing "fmt" twice into a session that already holds
one import of "fmt" still leaves exactly one. -/
theorem actionImport_idempotent_per_path_witness :
    (actionImport resolvesFmt sBase "fmt").2 = none ∧
    (actionImport resolvesFmt (actionImport resolvesFmt sBase "fmt").1 "fmt").2 = none ∧
    (actionImport resolvesFmt
      (actionImport resolvesFmt sBase "fmt").1 "fmt").1.imports.count
      (trimQuotes "fmt") = 1 :=
  actionImport_idempotent_per_path resolvesFmt sBase "fmt"
    (by decide) (by decide) (by decide) (by decide)

/-- C8: for a package path the importer fails to resolve, `actionImport`
returns an error and makes no change at all to the session — imports,
declarations and entry-point body included. -/
theorem actionImport_unresolvable_no_change (resolves : String → Bool)
    (s : Session) (arg : String)
    (hne : arg ≠ "") (hsp : containsSpace arg = false)
    (hres : resolves (trimQuotes arg) = false) :
    (actionImport resolves s arg).1 = s ∧
    (actionImport resolves s arg).2.isSome = true := by
  simp [actionImport, hne, hsp, actionImportSingle, hres]

/-- C8 (witness): importing the unresolvable path "nosuchpkg" errors and
leaves the session untouched. -/
theorem actionImport_unresolvable_no_change_witness :
    (actionImport resolvesFmt sBase "nosuchpkg").1 = sBase ∧
    (actionImport resolvesFmt sBase "nosuchpkg").2.isSome = true :=
  actionImport_unresolvable_no_change resolvesFmt sBase "nosuchpkg"
    (by decide) (by decide) (by decide)

/-- C1 (counterexample): the rollback guarantee fails in three ways, each
at an explicit input.  First, a run failing with exit status 1 (any nonzero
status other than the designated fault status 2) is reported but triggers
no rollback: the spliced statement is kept.  Second, even the status-2
rollback is not byte-for-byte for a declaration input that redefines an
existing function: the checkpoint's declaration is re-appended at the end,
reordering the declaration sequence.  Third, with autoImport enabled, a
declaration added by the import normalization survives the status-2
rollback. -/
theorem eval_rollback_byte_equality_fails :
    ((Eval sBase oGenericFail).2 = .errCmdRun ∧
     (Eval sBase oGenericFail).1.fileDecls ≠ sBase.fileDecls) ∧
    ((Eval sBase oDeclRedef).2 = .errCmdRun ∧
     (Eval sBase oDeclRedef).1.fileDecls ≠ sBase.fileDecls) ∧
    ((Eval sAuto oAutoFault).2 = .errCmdRun ∧
     (Eval sAuto oAutoFault).1.fileDecls ≠ sAuto.fileDecls) :=
  ⟨⟨rfl, by decide⟩, ⟨rfl, by decide⟩, ⟨rfl, by decide⟩⟩

/-- C1 (amended): with autoImport off and unique user function names, the
engine restores the checkpoint exactly when the run exits with the
designated fault status 2; on any other exit status and on a non-exit
failure the spliced input is kept while the failure is still reported
(first conjunct, for every committed interpretation).  The status-2
restoration makes the program byte-for-byte equal to its pre-input state
for inputs spliced as expressions or statement lists (second conjunct) and
for declaration inputs introducing a new function (third conjunct, first
part); for a declaration input redefining an existing function `f`, the
restoration recovers the pre-input entry-point body and declarations
except that `f`'s checkpoint declaration is re-appended at the end instead
of returning to its old position (third conjunct, second part). -/
theorem eval_rollback_exactly_on_fault_status (s : Session) (o : EvalOracle)
    (hauto : s.autoImport = false)
    (hnodup : (userFuncNames s.fileDecls).Nodup) :
    (∀ t k, classifyAndSplice (storeCode s) o.toParseOracle = (t, k) →
      (k = .exprKind ∨ k = .stmtKind ∨ k = .funcKind) →
      ((∀ c, c ≠ 2 → o.runResult = .exitStatus c → Eval s o = (t, .errCmdRun)) ∧
       (o.runResult = .otherFailure → Eval s o = (t, .errCmdRun)) ∧
       (o.runResult = .exitStatus 2 → Eval s o = (restoreCode t, .errCmdRun)))) ∧
    (((∃ e, o.exprParse = some e) ∨
        (o.exprParse = none ∧ ∃ st, o.stmtParse = some st)) →
      o.runResult = .exitStatus 2 →
      (Eval s o).1.fileDecls = s.fileDecls ∧
      (Eval s o).1.imports = s.imports) ∧
    (∀ f b, o.exprParse = none → o.stmtParse = none →
      o.fileParse = some [.funcDecl f b] → f ≠ "main" →
      o.runResult = .exitStatus 2 →
      ((countFuncNamed s.fileDecls f = 0 →
        (Eval s o).1.fileDecls = s.fileDecls) ∧
       (∀ d, findFunc s.fileDecls f = some d →
        (Eval s o).1.fileDecls = removeFirstFunc s.fileDecls f ++ [d]))) := by
  refine ⟨?_, ?_, ?_⟩
  · intro t k hc hk
    obtain ⟨-, hexit, hother⟩ := Eval_run_reduction s o t k hauto hc hk
    refine ⟨fun c hc2 hrr => ?_, hother, fun hrr => ?_⟩
    · rw [hexit c hrr, if_neg hc2]
    · rw [hexit 2 hrr, if_pos rfl]
  · intro hkind hrr
    rcases hkind with ⟨e, he⟩ | ⟨he, st, hst⟩
    · have hc : classifyAndSplice (storeCode s) o.toParseOracle =
          (appendStatements (storeCode s) [.callStmt printerName [e]], .exprKind) := by
        simp [classifyAndSplice, he, evalExprApply]
      obtain ⟨-, hexit, -⟩ :=
        Eval_run_reduction s o _ _ hauto hc (Or.inl rfl)
      have hev := hexit 2 hrr
      rw [if_pos rfl] at hev
      rw [hev]
      exact ⟨restore_after_append s _ hnodup, rfl⟩
    · have hc : classifyAndSplice (storeCode s) o.toParseOracle =
          (appendStatements (storeCode s) (evalStmtOut st), .stmtKind) := by
        simp [classifyAndSplice, he, hst, evalStmtApply]
      obtain ⟨-, hexit, -⟩ :=
        Eval_run_reduction s o _ _ hauto hc (Or.inr (Or.inl rfl))
      have hev := hexit 2 hrr
      rw [if_pos rfl] at hev
      rw [hev]
      exact ⟨restore_after_append s _ hnodup, rfl⟩
  · intro f b h1 h2 hfp hf hrr
    have hc : classifyAndSplice (storeCode s) o.toParseOracle =
        ({ storeCode s with
            fileDecls := removeFirstFunc s.fileDecls f ++ [.funcDecl f b] },
         .funcKind) := by
      simp [classifyAndSplice, h1, h2, hfp, evalFuncResult, evalFuncApply,
        storeCode_fileDecls]
    obtain ⟨-, hexit, -⟩ :=
      Eval_run_reduction s o _ _ hauto hc (Or.inr (Or.inr rfl))
    have hev := hexit 2 hrr
    rw [if_pos rfl] at hev
    have key := restore_after_funcSplice s f b hnodup hf
    constructor
    · intro hcount
      rw [hev]
      show (restoreCode { storeCode s with
          fileDecls := removeFirstFunc s.fileDecls f ++ [.funcDecl f b] }).fileDecls
        = s.fileDecls
      rw [key, findFunc_of_count_zero _ _ hcount,
        removeFirstFunc_of_count_zero _ _ hcount]
      simp
    · intro d hd
      rw [hev]
      show (restoreCode { storeCode s with
          fileDecls := removeFirstFunc s.fileDecls f ++ [.funcDecl f b] }).fileDecls
        = removeFirstFunc s.fileDecls f ++ [d]
      rw [key, hd]

/-- C1 (witness): on exit status 2 an expression input is restored to the
pre-input state; a declaration input redefining `f` is restored with `f`'s
checkpoint declaration re-appended at the end. -/
theorem eval_rollback_exactly_on_fault_status_witness :
    ((Eval sBase oFault).1.fileDecls = sBase.fileDecls ∧
     (Eval sBase oFault).1.imports = sBase.imports) ∧
    (Eval sBase oDeclRedef).1.fileDecls =
      removeFirstFunc sBase.fileDecls "f" ++ [.funcDecl "f" [.raw "return 1"]] :=
  ⟨(eval_rollback_exactly_on_fault_status sBase oFault rfl (by decide)).2.1
      (Or.inl ⟨.ident "x", rfl⟩) rfl,
   ((eval_rollback_exactly_on_fault_status sBase oDeclRedef rfl (by decide)).2.2
      "f" [.raw "return 2"] rfl rfl rfl (by decide) rfl).2
      (.funcDecl "f" [.raw "return 1"]) (by decide)⟩

/-- C9: when the input fails to parse as an expression, a statement list,
and a declaration, the token-scan fallback decides the outcome: if the scan
holds an illegal token the evaluation fails permanently with that token's
syntax error; otherwise it signals continue (buffer more input), and in
that case the program — declarations, entry-point body and imports — is
unchanged. -/
theorem tokenscan_fallback_error_or_incomplete (s : Session) (o : EvalOracle)
    (h1 : o.exprParse = none) (h2 : o.stmtParse = none)
    (h3 : exceptOk (evalFuncResult (storeCode s) o.fileParse) = false) :
    ((∃ lit, Token.illegal lit ∈ o.tokens) →
      ∃ lit, parseTokens o.tokens = some lit ∧ (Eval s o).2 = .scanError lit) ∧
    ((∀ lit, Token.illegal lit ∉ o.tokens) →
      (Eval s o).2 = .errContinue ∧
      (Eval s o).1.fileDecls = s.fileDecls ∧
      (Eval s o).1.imports = s.imports) := by
  obtain ⟨msg, hmsg⟩ : ∃ msg,
      evalFuncResult (storeCode s) o.fileParse = .error msg := by
    cases hf : evalFuncResult (storeCode s) o.fileParse with
    | ok s1 => rw [hf] at h3; simp [exceptOk] at h3
    | error m => exact ⟨m, rfl⟩
  constructor
  · rintro ⟨lit0, hmem⟩
    cases ht : parseTokens o.tokens with
    | none => exact absurd hmem ((parseTokens_eq_none_iff o.tokens).mp ht lit0)
    | some lit =>
      refine ⟨lit, rfl, ?_⟩
      simp [Eval, classifyAndSplice, h1, h2, hmsg, ht]
  · intro hall
    have ht : parseTokens o.tokens = none :=
      (parseTokens_eq_none_iff o.tokens).mpr hall
    refine ⟨?_, ?_, ?_⟩ <;>
      simp [Eval, classifyAndSplice, h1, h2, hmsg, ht,
        storeCode_fileDecls, storeCode_imports]

/-- C9 (witness): for an incomplete input (no interpretation parses, no
illegal token), the engine signals continue and the program is unchanged. -/
theorem tokenscan_fallback_error_or_incomplete_witness :
    (Eval sBase oIncomplete).2 = .errContinue ∧
    (Eval sBase oIncomplete).1.fileDecls = sBase.fileDecls ∧
    (Eval sBase oIncomplete).1.imports = sBase.imports :=
  (tokenscan_fallback_error_or_incomplete sBase oIncomplete rfl rfl rfl).2
    (fun lit h => by simp [oIncomplete] at h)

/-- C10: the type-query command leaves the Program unchanged whether it
succeeds or fails: it snapshots the state, appends a print-wrapped copy of
the expression for type checking, and restores the snapshot on every exit
path (given the invariant that user function names are unique). -/
theorem actionType_preserves_program (ep : Option GoExpr) (tin : Option String)
    (s : Session) (arg : String)
    (hnodup : (userFuncNames s.fileDecls).Nodup) :
    (actionType ep tin s arg).1.fileDecls = s.fileDecls ∧
    (actionType ep tin s arg).1.imports = s.imports := by
  unfold actionType
  by_cases ha : arg = ""
  · simp [ha]
  · simp only [if_neg ha]
    cases ep with
    | none =>
      refine ⟨?_, rfl⟩
      show (restoreCode (storeCode s)).fileDecls = s.fileDecls
      rw [restore_after_store s hnodup, storeCode_fileDecls]
    | some e =>
      cases tin with
      | none => exact ⟨restore_after_append s _ hnodup, rfl⟩
      | some t => exact ⟨restore_after_append s _ hnodup, rfl⟩

/-- C10 (witness): querying the type of `x` (parse and type oracle both
succeeding) leaves the concrete session's program untouched. -/
theorem actionType_preserves_program_witness :
    (actionType (some (.ident "x")) (some "int") sBase "x").1.fileDecls
      = sBase.fileDecls ∧
    (actionType (some (.ident "x")) (some "int") sBase "x").1.imports
      = sBase.imports :=
  actionType_preserves_program (some (.ident "x")) (some "int") sBase "x"
    (by decide)

end Gore
